import Mathlib

/-!
Shallow embedding of `emotion_code_reviewer.py` (class `EmotionCodeReviewer`).
Strings are modelled as `List Char`; Python regex searches are modelled by
explicit scanning functions; the two pretrained classifiers are modelled as
function parameters returning `Except` (an exception is `Except.error`).
-/

/-- Python strings, modelled as lists of characters. -/
abbrev Str := List Char

/-- Python `str.strip` / regex `\s` whitespace characters. -/
def isSpaceChar (c : Char) : Bool :=
  c = ' ' || c = '\t' || c = '\n' || c = '\r' || c = '\x0c' || c = '\x0b'

/-- Regex `\w` word characters (ASCII letters, digits, underscore). -/
def isWordChar (c : Char) : Bool :=
  c.isAlpha || c.isDigit || c = '_'

/-- Python `str.strip()`: remove leading and trailing whitespace. -/
def stripChars (s : Str) : Str :=
  ((s.dropWhile isSpaceChar).reverse.dropWhile isSpaceChar).reverse

/-- Python `str.split('\n')`. -/
def splitLines : Str → List Str
  | [] => [[]]
  | c :: rest =>
    if c = '\n' then [] :: splitLines rest
    else
      match splitLines rest with
      | [] => [[c]]
      | l :: ls => (c :: l) :: ls

/-- Python `str.lower()` (ASCII). -/
def lowerStr (s : Str) : Str := s.map Char.toLower

/-- Python substring membership `pat in s`. -/
def containsSub (pat : Str) : Str → Bool
  | [] => pat.isEmpty
  | c :: rest => pat.isPrefixOf (c :: rest) || containsSub pat rest

/-- Python `sep.join(parts)`. -/
def joinWith (sep : Str) : List Str → Str
  | [] => []
  | [t] => t
  | t :: ts => t ++ sep ++ joinWith sep ts

/-- `line.startswith('#') or line.startswith('//')` in `extract_code_context`. -/
def isCommentLine (l : Str) : Bool :=
  ("#").data.isPrefixOf l || ("//").data.isPrefixOf l

/-- `re.sub(r'^[#/]+\s*', '', line)`: if the line starts with `#` or `/`, drop
the leading run of `#`/`/` characters and the whitespace run after it. -/
def stripCommentMarker (l : Str) : Str :=
  let dropped := l.dropWhile (fun c => c = '#' || c = '/')
  if dropped = l then l else dropped.dropWhile isSpaceChar

/-- Attempting the regex `def\s+(\w+)` anchored at the front of `s`:
literal `def`, then at least one whitespace, then the captured word run. -/
def matchDefAt (s : Str) : Option Str :=
  if ("def").data.isPrefixOf s then
    let t := s.drop 3
    if (t.takeWhile isSpaceChar).isEmpty then none
    else
      let name := (t.dropWhile isSpaceChar).takeWhile isWordChar
      if name.isEmpty then none else some name
  else none

/-- `re.search(r'def\s+(\w+)', line)`: leftmost match anywhere in the line. -/
def searchDef : Str → Option Str
  | [] => none
  | c :: rest =>
    match matchDefAt (c :: rest) with
    | some name => some name
    | none => searchDef rest

/-- `re.search(r'^(\w+)\s*=', line)`: anchored match of an identifier,
optional whitespace, then `=`; the identifier is captured. -/
def matchVar (l : Str) : Option Str :=
  let w := l.takeWhile isWordChar
  if w.isEmpty then none
  else
    match (l.dropWhile isWordChar).dropWhile isSpaceChar with
    | '=' :: _ => some w
    | _ => none

/-- The `context` dictionary built by `extract_code_context`. -/
structure CodeContext where
  comments : List Str
  functions : List Str
  variables_ : List Str
  todo_items : List Str
deriving DecidableEq, Repr

def emptyContext : CodeContext := ⟨[], [], [], []⟩

/-- The body of the `for line in lines` loop of `extract_code_context`:
strip the line; if it is a comment, record the comment (and the TODO item
when the lowered comment contains `todo` or `fixme`); then, with no
exclusion, run the function search and the variable match on the same
stripped line. -/
def processLine (ctx : CodeContext) (rawLine : Str) : CodeContext :=
  let line := stripChars rawLine
  let ctx1 :=
    if isCommentLine line then
      let comment := stripCommentMarker line
      let ctx0 := { ctx with comments := ctx.comments ++ [comment] }
      if containsSub ("todo").data (lowerStr comment)
          || containsSub ("fixme").data (lowerStr comment) then
        { ctx0 with todo_items := ctx0.todo_items ++ [comment] }
      else ctx0
    else ctx
  let ctx2 :=
    match searchDef line with
    | some name => { ctx1 with functions := ctx1.functions ++ [name] }
    | none => ctx1
  match matchVar line with
  | some v => { ctx2 with variables_ := ctx2.variables_ ++ [v] }
  | none => ctx2

/-- `EmotionCodeReviewer.extract_code_context`. -/
def extract_code_context (code_text : Str) : CodeContext :=
  List.foldl processLine emptyContext (splitLines code_text)

example : extract_code_context ("# TODO: fix this").data =
    ⟨[("TODO: fix this").data], [], [], [("TODO: fix this").data]⟩ := by decide

example : extract_code_context ("x = 5").data =
    ⟨[], [], [("x").data], []⟩ := by decide

example : extract_code_context ("def foo(x):").data =
    ⟨[], [("foo").data], [], []⟩ := by decide

/-- One classifier output item: `{'label': ..., 'score': ...}`. -/
structure ModelOut where
  label : Str
  score : Rat
deriving DecidableEq, Repr

/-- The dictionary returned by `analyze_developer_emotion`: the success branch
fills the four classifier fields, the fallback branch fills `confidence`. -/
structure EmotionResult where
  emotion : Str
  sentiment : Str
  emotion_confidence : Option Rat
  sentiment_confidence : Option Rat
  confidence : Option Rat
deriving DecidableEq, Repr

/-- `{'emotion': 'neutral', 'sentiment': 'neutral', 'confidence': 0.5}`. -/
def neutralDefault : EmotionResult :=
  { emotion := ("neutral").data
    sentiment := ("neutral").data
    emotion_confidence := none
    sentiment_confidence := none
    confidence := some (1 / 2) }

/-- Observable outcome of one `analyze_developer_emotion` call: the returned
dictionary, whether the classifier pipeline was invoked, and whether the
`Analysis error` diagnostic was printed. -/
structure AnalyzeOutcome where
  result : EmotionResult
  invoked_model : Bool
  printed_diagnostic : Bool
deriving DecidableEq, Repr

/-- `EmotionCodeReviewer.analyze_developer_emotion`, parametrised by the two
pipelines; a raised exception is an `Except.error` of either pipeline, and is
caught by the `except` clause (diagnostic printed, neutral default returned). -/
def analyze_developer_emotion (emotion_classifier sentiment_analyzer : Str → Except Str ModelOut)
    (text_elements : List Str) : AnalyzeOutcome :=
  if text_elements.isEmpty then
    { result := neutralDefault, invoked_model := false, printed_diagnostic := false }
  else
    let combined_text := joinWith [' '] text_elements
    match emotion_classifier combined_text with
    | Except.error _ =>
        { result := neutralDefault, invoked_model := true, printed_diagnostic := true }
    | Except.ok emotion_result =>
      match sentiment_analyzer combined_text with
      | Except.error _ =>
          { result := neutralDefault, invoked_model := true, printed_diagnostic := true }
      | Except.ok sentiment_result =>
          { result :=
              { emotion := lowerStr emotion_result.label
                sentiment := lowerStr sentiment_result.label
                emotion_confidence := some emotion_result.score
                sentiment_confidence := some sentiment_result.score
                confidence := none }
            invoked_model := true
            printed_diagnostic := false }

/-- The `feedback` dictionary of `generate_personalized_feedback`. -/
structure Feedback where
  emotional_insights : List Str
  code_suggestions : List Str
  motivational_notes : List Str
  technical_recommendations : List Str
deriving DecidableEq, Repr

def emptyFeedback : Feedback := ⟨[], [], [], []⟩

def angerInsight : Str :=
  (" Sounds like your kinda annoyed in your comments. Just chill out - coding problems are good for you!").data

def angerMotivation : Str :=
  (" Remeber: everyone good at this was bad once. Ur getting there!").data

def joyInsight : Str :=
  (" Really good vibe in your code! Your happy feelings comes through in comments.").data

def sadnessInsight : Str :=
  (" Looks like your having a hard time coding. Take a break, or ask for help, don\x27t be shy!").data

def noCommentsSuggestion : Str :=
  (" Maybe put more comments in to say what your doing - you (and your friends) will be happy later!").data

def todoSuggestion (n : Nat) : Str :=
  (" You got ").data ++ (toString n).data
    ++ (" TODO stuff to do. How about doin\x27 some of those first, then adding new things?").data

def selfDeprecationRec : Str :=
  (" I see you saying bad things about your code. Try to make it better instead of being mean to yourself!").data

def shortVarsRec (names : List Str) : Str :=
  (" Try to use longer names for variables like: ").data ++ joinWith (", ").data names

/-- The `if emotion in ['anger', 'frustration'] ... elif ... elif` chain of
`generate_personalized_feedback`. -/
def emotionRule (fb : Feedback) (emotion : Str) : Feedback :=
  if emotion = ("anger").data ∨ emotion = ("frustration").data then
    { fb with emotional_insights := fb.emotional_insights ++ [angerInsight]
              motivational_notes := fb.motivational_notes ++ [angerMotivation] }
  else if emotion = ("joy").data then
    { fb with emotional_insights := fb.emotional_insights ++ [joyInsight] }
  else if emotion = ("sadness").data then
    { fb with emotional_insights := fb.emotional_insights ++ [sadnessInsight] }
  else fb

/-- `if len(code_context['comments']) == 0` in `generate_personalized_feedback`. -/
def commentsRule (fb : Feedback) (code_context : CodeContext) : Feedback :=
  if code_context.comments.length = 0 then
    { fb with code_suggestions := fb.code_suggestions ++ [noCommentsSuggestion] }
  else fb

/-- `if len(code_context['todo_items']) > 3` in `generate_personalized_feedback`. -/
def todoRule (fb : Feedback) (code_context : CodeContext) : Feedback :=
  if code_context.todo_items.length > 3 then
    { fb with code_suggestions :=
        fb.code_suggestions ++ [todoSuggestion code_context.todo_items.length] }
  else fb

/-- `if any(word in ' '.join(...).lower() for word in [...])` in
`generate_personalized_feedback`. -/
def badWordsRule (fb : Feedback) (code_context : CodeContext) : Feedback :=
  if [("hack").data, ("dirty").data, ("terrible").data, ("broken").data].any
      (fun word => containsSub word (lowerStr (joinWith [' '] code_context.comments))) then
    { fb with technical_recommendations :=
        fb.technical_recommendations ++ [selfDeprecationRec] }
  else fb

/-- `short_vars = [v for v in code_context['variables'] if len(v) <= 2]`. -/
def short_vars (code_context : CodeContext) : List Str :=
  code_context.variables_.filter (fun v => v.length ≤ 2)

/-- `if code_context['variables']: ... if len(short_vars) > 2` in
`generate_personalized_feedback`. -/
def shortVarsRule (fb : Feedback) (code_context : CodeContext) : Feedback :=
  if code_context.variables_ ≠ [] then
    if (short_vars code_context).length > 2 then
      { fb with technical_recommendations :=
          fb.technical_recommendations ++ [shortVarsRec ((short_vars code_context).take 3)] }
    else fb
  else fb

/-- `EmotionCodeReviewer.generate_personalized_feedback`: the fixed rule
table, appending in source order, starting from the empty `feedback`
dictionary.  `commit_msg` is accepted and unused, exactly as in the source. -/
def generate_personalized_feedback (code_context : CodeContext)
    (emotion_analysis : EmotionResult) (commit_msg : Str) : Feedback :=
  shortVarsRule
    (badWordsRule
      (todoRule
        (commentsRule (emotionRule emptyFeedback emotion_analysis.emotion) code_context)
        code_context)
      code_context)
    code_context

/-- `text_for_analysis = context['comments'] + [commit_message] if commit_message
else context['comments']` (Python conditional expression). -/
def text_for_analysis (context : CodeContext) (commit_message : Str) : List Str :=
  if commit_message.isEmpty then context.comments
  else context.comments ++ [commit_message]

/-- The `report` dictionary assembled by `review_code`. -/
structure ReviewReport where
  developer : Str
  timestamp : Str
  emotion_analysis : EmotionResult
  comments_count : Nat
  functions_count : Nat
  todo_count : Nat
  feedback : Feedback
deriving DecidableEq, Repr

/-- `EmotionCodeReviewer.review_code`, parametrised by the two pipelines and
by the clock value used for the timestamp. -/
def review_code (emotion_classifier sentiment_analyzer : Str → Except Str ModelOut)
    (now : Str) (code_text commit_message developer_name : Str) : ReviewReport :=
  let context := extract_code_context code_text
  let emotion_analysis :=
    (analyze_developer_emotion emotion_classifier sentiment_analyzer
      (text_for_analysis context commit_message)).result
  let feedback := generate_personalized_feedback context emotion_analysis commit_message
  { developer := developer_name
    timestamp := now
    emotion_analysis := emotion_analysis
    comments_count := context.comments.length
    functions_count := context.functions.length
    todo_count := context.todo_items.length
    feedback := feedback }

/-- A classifier stub that always succeeds with label `JOY`. -/
def constJoy : Str → Except Str ModelOut :=
  fun _ => Except.ok { label := ("JOY").data, score := 9 / 10 }

/-- A classifier stub that always raises. -/
def constErr : Str → Except Str ModelOut :=
  fun _ => Except.error ("boom").data

/-- The regex pattern `def\s+(\w+)` occurs somewhere in `s`: some position is
followed by the literal `def`, then at least one whitespace character, then
at least one word character. -/
def DefOccursIn (s : Str) : Prop :=
  ∃ pre ws w rest, s = pre ++ (('d' :: 'e' :: 'f' :: []) ++ (ws ++ (w ++ rest))) ∧
    ws ≠ [] ∧ (∀ c ∈ ws, isSpaceChar c = true) ∧ w ≠ [] ∧ (∀ c ∈ w, isWordChar c = true)

lemma space_not_word {c : Char} (h : isSpaceChar c = true) : isWordChar c = false := by
  simp only [isSpaceChar, Bool.or_eq_true, decide_eq_true_eq] at h
  rcases h with ((((h | h) | h) | h) | h) | h <;> subst h <;> decide

lemma word_not_space {c : Char} (h : isWordChar c = true) : isSpaceChar c = false := by
  cases hs : isSpaceChar c with
  | false => rfl
  | true => exact absurd h (by simp [space_not_word hs])

lemma dropWhile_append_all {p : Char → Bool} {xs ys : Str} (h : ∀ c ∈ xs, p c = true) :
    List.dropWhile p (xs ++ ys) = List.dropWhile p ys := by
  induction xs with
  | nil => rfl
  | cons a as ih =>
      simp only [List.cons_append, List.dropWhile_cons, h a (by simp), if_true]
      exact ih (fun c hc => h c (by simp [hc]))

lemma takeWhile_append_all {p : Char → Bool} {xs ys : Str} (h : ∀ c ∈ xs, p c = true) :
    List.takeWhile p (xs ++ ys) = xs ++ List.takeWhile p ys := by
  induction xs with
  | nil => rfl
  | cons a as ih =>
      simp only [List.cons_append, List.takeWhile_cons, h a (by simp), if_true]
      simp [ih (fun c hc => h c (by simp [hc]))]

lemma processLine_variables_eq (ctx : CodeContext) (l : Str) :
    (processLine ctx l).variables_ =
      match matchVar (stripChars l) with
      | some v => ctx.variables_ ++ [v]
      | none => ctx.variables_ := by
  simp only [processLine]
  (repeat' split) <;> simp_all

lemma processLine_functions_eq (ctx : CodeContext) (l : Str) :
    (processLine ctx l).functions =
      match searchDef (stripChars l) with
      | some name => ctx.functions ++ [name]
      | none => ctx.functions := by
  simp only [processLine]
  (repeat' split) <;> simp_all

lemma processLine_sublist {ctx : CodeContext} (l : Str)
    (h : ctx.todo_items.Sublist ctx.comments) :
    (processLine ctx l).todo_items.Sublist (processLine ctx l).comments := by
  simp only [processLine]
  (repeat' split) <;>
    first
      | exact h
      | exact h.trans (List.sublist_append_left _ _)
      | exact h.append (List.Sublist.refl _)

lemma foldl_sublist (lines : List Str) (ctx : CodeContext)
    (h : ctx.todo_items.Sublist ctx.comments) :
    (List.foldl processLine ctx lines).todo_items.Sublist
      (List.foldl processLine ctx lines).comments := by
  induction lines generalizing ctx with
  | nil => exact h
  | cons l ls ih => exact ih _ (processLine_sublist l h)

lemma comment_head {c : Char} {rest : Str} (h : isCommentLine (c :: rest) = true) :
    c = '#' ∨ c = '/' := by
  simp only [isCommentLine, Bool.or_eq_true] at h
  rcases h with h | h
  · left
    have := (List.isPrefixOf_iff_prefix).1 h
    rcases this with ⟨t, ht⟩
    simpa using congrArg (List.head? ·) ht.symm
  · right
    have := (List.isPrefixOf_iff_prefix).1 h
    rcases this with ⟨t, ht⟩
    simpa using congrArg (List.head? ·) ht.symm

lemma stripChars_indent {ind l : Str} (h : ∀ c ∈ ind, isSpaceChar c = true) :
    stripChars (ind ++ l) = stripChars l := by
  unfold stripChars
  rw [dropWhile_append_all h]

lemma laterRules_insights (fb : Feedback) (cc : CodeContext) :
    (shortVarsRule (badWordsRule (todoRule (commentsRule fb cc) cc) cc) cc).emotional_insights
      = fb.emotional_insights := by
  unfold shortVarsRule badWordsRule todoRule commentsRule
  (repeat' split) <;> rfl

lemma laterRules_motivational (fb : Feedback) (cc : CodeContext) :
    (shortVarsRule (badWordsRule (todoRule (commentsRule fb cc) cc) cc) cc).motivational_notes
      = fb.motivational_notes := by
  unfold shortVarsRule badWordsRule todoRule commentsRule
  (repeat' split) <;> rfl

lemma matchDefAt_some_ne_nil {s name : Str} (h : matchDefAt s = some name) : name ≠ [] := by
  simp only [matchDefAt] at h
  split at h
  · split at h
    · exact absurd h (by simp)
    · split at h
      · exact absurd h (by simp)
      · rename_i hne
        have := Option.some.inj h
        subst this
        simpa [List.isEmpty_iff] using hne
  · exact absurd h (by simp)

lemma matchDefAt_front {ws w rest : Str} (h1 : ws ≠ []) (h2 : ∀ c ∈ ws, isSpaceChar c = true)
    (h3 : w ≠ []) (h4 : ∀ c ∈ w, isWordChar c = true) :
    ∃ name, matchDefAt (('d' :: 'e' :: 'f' :: []) ++ (ws ++ (w ++ rest))) = some name := by
  obtain ⟨a, ws2, rfl⟩ := List.exists_cons_of_ne_nil h1
  obtain ⟨b, w2, rfl⟩ := List.exists_cons_of_ne_nil h3
  have ha : isSpaceChar a = true := h2 a (by simp)
  have hb : isWordChar b = true := h4 b (by simp)
  have hpre : ("def").data.isPrefixOf
      (('d' :: 'e' :: 'f' :: []) ++ ((a :: ws2) ++ ((b :: w2) ++ rest))) = true := by
    have hdef : ("def").data = ('d' :: 'e' :: 'f' :: []) := by decide
    rw [hdef]
    exact (List.isPrefixOf_iff_prefix).2 (List.prefix_append _ _)
  simp only [matchDefAt, hpre, if_true]
  have hdrop3 : (('d' :: 'e' :: 'f' :: []) ++ ((a :: ws2) ++ ((b :: w2) ++ rest))).drop 3
      = (a :: ws2) ++ ((b :: w2) ++ rest) := rfl
  rw [hdrop3]
  rw [if_neg (by simp [ha])]
  have hdw : List.dropWhile isSpaceChar ((a :: ws2) ++ ((b :: w2) ++ rest))
      = (b :: w2) ++ rest := by
    rw [dropWhile_append_all h2]
    simp [List.dropWhile_cons, word_not_space hb]
  rw [hdw]
  rw [if_neg (by simp [hb])]
  exact ⟨_, rfl⟩

lemma searchDef_cons (c : Char) (rest : Str) :
    searchDef (c :: rest) =
      match matchDefAt (c :: rest) with
      | some name => some name
      | none => searchDef rest := rfl

lemma searchDef_occurs (pre ws w rest : Str) (h1 : ws ≠ [])
    (h2 : ∀ c ∈ ws, isSpaceChar c = true) (h3 : w ≠ [])
    (h4 : ∀ c ∈ w, isWordChar c = true) :
    ∃ name, searchDef (pre ++ (('d' :: 'e' :: 'f' :: []) ++ (ws ++ (w ++ rest)))) = some name
      ∧ name ≠ [] := by
  induction pre with
  | nil =>
      obtain ⟨name, hm⟩ := matchDefAt_front h1 h2 h3 h4
      refine ⟨name, ?_, matchDefAt_some_ne_nil hm⟩
      simp only [List.nil_append, List.cons_append] at hm ⊢
      rw [searchDef_cons, hm]
  | cons p pre2 ih =>
      obtain ⟨name, hm, hne⟩ := ih
      cases hM : matchDefAt (p :: (pre2 ++ (('d' :: 'e' :: 'f' :: []) ++ (ws ++ (w ++ rest))))) with
      | some nm =>
          refine ⟨nm, ?_, matchDefAt_some_ne_nil hM⟩
          simp only [List.cons_append, List.nil_append] at hM ⊢
          rw [searchDef_cons, hM]
      | none =>
          refine ⟨name, ?_, hne⟩
          simp only [List.cons_append, List.nil_append] at hM hm ⊢
          rw [searchDef_cons, hM]
          exact hm

/-- Claim C1, counterexample: the input line `# def foo` is matched as a
comment (its body is recorded in `comments`), yet the same line also
contributes `foo` to the `functions` sequence — comment detection is not
exclusive of the function check. -/
theorem c1_counterexample :
    (extract_code_context ("# def foo").data).comments = [("def foo").data] ∧
    (extract_code_context ("# def foo").data).functions = [("foo").data] := by
  decide

/-- Claim C1, amended: comment-line detection is checked first but is only
exclusive of the variable check — a line matched as a comment never
contributes to the `variables` sequence (the anchored variable pattern
cannot match a line starting with `#` or `/`), though it may still
contribute to `functions`. -/
theorem c1_theorem (ctx : CodeContext) (l : Str)
    (h : isCommentLine (stripChars l) = true) :
    (processLine ctx l).variables_ = ctx.variables_ := by
  have hv : matchVar (stripChars l) = none := by
    cases hs : stripChars l with
    | nil => rw [hs] at h; simp [isCommentLine, List.isPrefixOf] at h
    | cons c rest =>
        rw [hs] at h
        have hw : isWordChar c = false := by
          rcases comment_head h with hc | hc <;> subst hc <;> decide
        simp [matchVar, List.takeWhile_cons, hw]
  simp [processLine_variables_eq, hv]

/-- Claim C1, witness: the comment line `# x = 5` adds nothing to
`variables`. -/
theorem c1_witness :
    isCommentLine (stripChars ("# x = 5").data) = true ∧
    (processLine emptyContext ("# x = 5").data).variables_ = emptyContext.variables_ :=
  ⟨by decide, c1_theorem emptyContext ("# x = 5").data (by decide)⟩

/-- Claim C2, counterexample: for input code `#` the extracted comments are
`[""]`, so the combined text is the empty string, yet the guard
`if not text_elements` does not fire and the underlying model is invoked. -/
theorem c2_counterexample :
    text_for_analysis (extract_code_context ("#").data) [] = [([] : Str)] ∧
    joinWith [' '] (text_for_analysis (extract_code_context ("#").data) []) = [] ∧
    (analyze_developer_emotion constJoy constJoy
        (text_for_analysis (extract_code_context ("#").data) [])).invoked_model = true := by
  refine ⟨by decide, by decide, rfl⟩

/-- Claim C2, amended: the guard is on the list of text elements, not on the
combined text: when the list is empty, `analyze_developer_emotion` returns
the neutral default without invoking the underlying model. -/
theorem c2_theorem (emotion_classifier sentiment_analyzer : Str → Except Str ModelOut) :
    analyze_developer_emotion emotion_classifier sentiment_analyzer [] =
      { result := neutralDefault, invoked_model := false, printed_diagnostic := false } := rfl

/-- Claim C3, counterexample: the indented assignment line `    a = 5` IS
detected — `a` is added to the `variables` sequence. -/
theorem c3_counterexample :
    (extract_code_context ("    a = 5").data).variables_ = [("a").data] := by decide

/-- Claim C3, amended: each line is stripped of surrounding whitespace
before any pattern is tried, so per-line extraction is invariant under
indentation: the variable pattern is anchored at the start of the trimmed
line, and indented simple assignments are detected exactly like top-level
ones. -/
theorem c3_theorem (ctx : CodeContext) (ind l : Str)
    (h : ∀ c ∈ ind, isSpaceChar c = true) :
    processLine ctx (ind ++ l) = processLine ctx l := by
  simp only [processLine, stripChars_indent h]

/-- Claim C3, witness: prefixing `a = 5` with four spaces does not change
how the line is processed. -/
theorem c3_witness :
    processLine emptyContext (("    ").data ++ ("a = 5").data) =
      processLine emptyContext ("a = 5").data :=
  c3_theorem emptyContext ("    ").data ("a = 5").data (by decide)

/-- Claim C4: if the model invocation inside `analyze_developer_emotion`
raises (either pipeline returns an error), the failure is caught, the
diagnostic is printed, and the neutral default is returned; the function is
total, so the failure never propagates to the caller. -/
theorem c4_theorem (emotion_classifier sentiment_analyzer : Str → Except Str ModelOut)
    (text_elements : List Str) (h : text_elements ≠ [])
    (hfail : ∀ r, emotion_classifier (joinWith [' '] text_elements) = Except.ok r →
      ∃ e, sentiment_analyzer (joinWith [' '] text_elements) = Except.error e) :
    analyze_developer_emotion emotion_classifier sentiment_analyzer text_elements =
      { result := neutralDefault, invoked_model := true, printed_diagnostic := true } := by
  simp only [analyze_developer_emotion]
  rw [if_neg (by simpa [List.isEmpty_iff] using h)]
  cases he : emotion_classifier (joinWith [' '] text_elements) with
  | error e => simp
  | ok r =>
      obtain ⟨e, hs⟩ := hfail r he
      simp [hs]

/-- Claim C4, witness: with an always-raising classifier and input `["hi"]`,
the neutral default is returned and the diagnostic printed. -/
theorem c4_witness :
    analyze_developer_emotion constErr constErr [("hi").data] =
      { result := neutralDefault, invoked_model := true, printed_diagnostic := true } :=
  c4_theorem constErr constErr [("hi").data] (by decide) (fun r hr => nomatch hr)

/-- Claim C5: for every input text, the `todo_items` sequence is a sublist
of the `comments` sequence, hence never longer than it. -/
theorem c5_theorem (code_text : Str) :
    (extract_code_context code_text).todo_items.Sublist
        (extract_code_context code_text).comments ∧
      (extract_code_context code_text).todo_items.length ≤
        (extract_code_context code_text).comments.length := by
  have h := foldl_sublist (splitLines code_text) emptyContext (List.Sublist.refl [])
  exact ⟨h, h.length_le⟩

/-- Claim C6: emotional-insight selection is mutually exclusive over the
emotion label: `anger`/`frustration` append exactly the sympathetic insight
plus the motivational note, `joy` exactly the encouraging insight, `sadness`
exactly the supportive insight, and any other label appends neither. -/
theorem c6_theorem (ctx : CodeContext) (ea : EmotionResult) (commit : Str) :
    (generate_personalized_feedback ctx ea commit).emotional_insights =
      (if ea.emotion = ("anger").data ∨ ea.emotion = ("frustration").data then [angerInsight]
       else if ea.emotion = ("joy").data then [joyInsight]
       else if ea.emotion = ("sadness").data then [sadnessInsight]
       else []) ∧
    (generate_personalized_feedback ctx ea commit).motivational_notes =
      (if ea.emotion = ("anger").data ∨ ea.emotion = ("frustration").data then [angerMotivation]
       else []) := by
  unfold generate_personalized_feedback
  rw [laterRules_insights, laterRules_motivational]
  unfold emotionRule
  constructor <;> · split_ifs <;> simp [emptyFeedback]

/-- Claim C7: `review_code` passes to the classifier exactly
`comments ++ [commit_message]` when the commit message is non-empty and
exactly `comments` when it is empty, and the report metrics are the lengths
of the `comments`, `functions` and `todo_items` sequences. -/
theorem c7_theorem (emotion_classifier sentiment_analyzer : Str → Except Str ModelOut)
    (now code_text commit_message developer_name : Str) :
    text_for_analysis (extract_code_context code_text) commit_message =
      (if commit_message = [] then (extract_code_context code_text).comments
       else (extract_code_context code_text).comments ++ [commit_message]) ∧
    (review_code emotion_classifier sentiment_analyzer now code_text commit_message
        developer_name).emotion_analysis =
      (analyze_developer_emotion emotion_classifier sentiment_analyzer
        (text_for_analysis (extract_code_context code_text) commit_message)).result ∧
    (review_code emotion_classifier sentiment_analyzer now code_text commit_message
        developer_name).comments_count = (extract_code_context code_text).comments.length ∧
    (review_code emotion_classifier sentiment_analyzer now code_text commit_message
        developer_name).functions_count = (extract_code_context code_text).functions.length ∧
    (review_code emotion_classifier sentiment_analyzer now code_text commit_message
        developer_name).todo_count = (extract_code_context code_text).todo_items.length := by
  refine ⟨?_, rfl, rfl, rfl, rfl⟩
  simp only [text_for_analysis, List.isEmpty_iff]

/-- Claim C8: whenever the pattern `def` + whitespace + word characters
occurs anywhere in the processed line — with no regard to context, so also
inside a comment or a string literal — the captured identifier is appended
to the `functions` sequence. -/
theorem c8_theorem (ctx : CodeContext) (l : Str) (h : DefOccursIn (stripChars l)) :
    ∃ name, name ≠ [] ∧ (processLine ctx l).functions = ctx.functions ++ [name] := by
  obtain ⟨pre, ws, w, rest, hs, h1, h2, h3, h4⟩ := h
  obtain ⟨name, hm, hne⟩ := searchDef_occurs pre ws w rest h1 h2 h3 h4
  refine ⟨name, hne, ?_⟩
  rw [processLine_functions_eq, hs, hm]

/-- Claim C8, witness: the assignment line `s = "def helper"` contains the
pattern only inside a string literal, yet a function name is recorded. -/
theorem c8_witness :
    DefOccursIn (stripChars ("s = \"def helper\"").data) ∧
    ∃ name, name ≠ [] ∧
      (processLine emptyContext ("s = \"def helper\"").data).functions =
        emptyContext.functions ++ [name] :=
  have hocc : DefOccursIn (stripChars ("s = \"def helper\"").data) :=
    ⟨("s = \"").data, [' '], ("helper").data, ("\"").data,
      by decide, by decide, by decide, by decide, by decide⟩
  ⟨hocc, c8_theorem emptyContext ("s = \"def helper\"").data hocc⟩

/-- Claim C9: a trimmed line that begins with an identifier followed
(possibly after whitespace, in particular immediately) by `==` has that
identifier captured into the `variables` sequence, because the variable
pattern matches the first `=` of `==`. -/
theorem c9_theorem (ctx : CodeContext) (l v sp rest : Str)
    (hstrip : stripChars l = v ++ (sp ++ ('=' :: '=' :: rest)))
    (hv : v ≠ []) (hw : ∀ c ∈ v, isWordChar c = true)
    (hsp : ∀ c ∈ sp, isSpaceChar c = true) :
    (processLine ctx l).variables_ = ctx.variables_ ++ [v] := by
  have heqw : isWordChar '=' = false := by decide
  have heqs : isSpaceChar '=' = false := by decide
  have htk0 : List.takeWhile isWordChar (sp ++ ('=' :: '=' :: rest)) = [] := by
    cases sp with
    | nil => simp [List.takeWhile_cons, heqw]
    | cons a sp2 =>
        have ha : isWordChar a = false := space_not_word (hsp a (by simp))
        simp [List.takeWhile_cons, ha]
  have htake : List.takeWhile isWordChar (v ++ (sp ++ ('=' :: '=' :: rest))) = v := by
    rw [takeWhile_append_all hw, htk0, List.append_nil]
  have hdw0 : List.dropWhile isWordChar (sp ++ ('=' :: '=' :: rest))
      = sp ++ ('=' :: '=' :: rest) := by
    cases sp with
    | nil => simp [List.dropWhile_cons, heqw]
    | cons a sp2 =>
        have ha : isWordChar a = false := space_not_word (hsp a (by simp))
        simp [List.dropWhile_cons, ha]
  have hdrop : List.dropWhile isWordChar (v ++ (sp ++ ('=' :: '=' :: rest)))
      = sp ++ ('=' :: '=' :: rest) := by
    rw [dropWhile_append_all hw, hdw0]
  have heq : List.dropWhile isSpaceChar (sp ++ ('=' :: '=' :: rest)) = '=' :: '=' :: rest := by
    rw [dropWhile_append_all hsp]
    simp [List.dropWhile_cons, heqs]
  have hmv : matchVar (stripChars l) = some v := by
    rw [hstrip]
    simp only [matchVar]
    rw [htake, hdrop, heq]
    rw [if_neg (by simp [List.isEmpty_iff, hv])]
    rfl
  simp [processLine_variables_eq, hmv]

/-- Claim C9, witness: the comparison line `x == 5` records `x` as an
assigned variable. -/
theorem c9_witness :
    stripChars ("x == 5").data =
        ("x").data ++ ([' '] ++ ('=' :: '=' :: (" 5").data)) ∧
      (processLine emptyContext ("x == 5").data).variables_ =
        emptyContext.variables_ ++ [("x").data] :=
  ⟨by decide,
    c9_theorem emptyContext ("x == 5").data ("x").data [' '] ((" 5").data)
      (by decide) (by decide) (by decide) (by decide)⟩

/-- Claim C10: the `variables` sequence keeps one entry per assignment
occurrence, so assigning the same 1-character name on three lines makes the
short-variable count 3 (> 2), the recommendation fires, and the listed
first 3 short names repeat that one name. -/
theorem c10_theorem :
    (extract_code_context ("a = 1\na = 2\na = 3").data).variables_ =
        [("a").data, ("a").data, ("a").data] ∧
      (generate_personalized_feedback (extract_code_context ("a = 1\na = 2\na = 3").data)
          neutralDefault []).technical_recommendations =
        [shortVarsRec [("a").data, ("a").data, ("a").data]] ∧
      shortVarsRec [("a").data, ("a").data, ("a").data] =
        (" Try to use longer names for variables like: a, a, a").data := by
  refine ⟨by decide, by decide, by decide⟩
